import Mathlib

/-!
# UV ShapeKeys: verification of the correspondence-matching and delta-blending engine

Shallow embedding of `src/uvshape_v2.py` (the later revision, which the spec's
engine describes).  Numeric values are modelled as exact rationals `ℚ`; the
Blender/bmesh host objects are modelled by the data they supply to the engine:
an ordered vertex-position list plus the per-face-loop UV data (UV coordinate
and the vertex index the loop is attached to), together with a flag recording
whether the mesh has an active UV layer.

Python loops that build lists are embedded as `List.bind` / `List.filterMap` /
`List.foldl` in the same iteration order; Python `dict`s (which preserve key
insertion order) are embedded as association lists with keys appended at the
end, exactly mirroring the source's insertion discipline.

UI-only fields of the property groups (`name`, `active_target_index`) are not
read by any of the operators modelled here and are omitted.
-/

namespace UVShape

/-- A 3-component position, `mathutils.Vector` / a row of the numpy coordinate
arrays in the source. -/
structure Vec3 where
  x : ℚ
  y : ℚ
  z : ℚ
  deriving DecidableEq, Repr

def vzero : Vec3 := ⟨0, 0, 0⟩

/-- Componentwise subtraction, `target_coords[target_vert] - original_coords[source_vert]`. -/
def Vec3.sub (a b : Vec3) : Vec3 := ⟨a.x - b.x, a.y - b.y, a.z - b.z⟩

/-- Axis access, `coord[dim]` for `dim in range(3)`. -/
def Vec3.nth (v : Vec3) : Fin 3 → ℚ
  | ⟨0, _⟩ => v.x
  | ⟨1, _⟩ => v.y
  | ⟨2, _⟩ => v.z

/-- The significance threshold `1e-6` used both for skipping targets and for
dropping insignificant deltas. -/
def tol6 : ℚ := 1 / 1000000

/-- The delta grouping tolerance `1e-5` (`tolerance = 1e-5` in the source). -/
def tol5 : ℚ := 1 / 100000

/-- `abs(q) > 1e-6`, the significance test `np.abs(...) > 1e-6`. -/
abbrev sig (q : ℚ) : Prop := tol6 < |q|

/-- `np.any(np.abs(delta) > 1e-6)` for a 3-component delta. -/
abbrev sigVec (v : Vec3) : Prop := sig v.x ∨ sig v.y ∨ sig v.z

/-- A UV coordinate: pair of components (`loop[uv_layer].uv`). -/
abbrev UV := ℚ × ℚ

/-- `round(c, 5)`: quantization of one UV component to 5 decimal digits. -/
def round5 (q : ℚ) : ℚ := ((round (q * 100000) : ℤ) : ℚ) / 100000

/-- `tuple(round(c, 5) for c in loop[uv_layer].uv)`. -/
def quantUV (uv : UV) : UV := (round5 uv.1, round5 uv.2)

/-- The dictionary built by `get_uv_vertex_map`: quantized UV coordinate to
list of vertex indices, in insertion order (Python dicts preserve it). -/
abbrev UVMap := List (UV × List Nat)

/-- A mesh as seen by the engine: ordered vertex positions, whether there is an
active UV layer, and the face loops (each face is a list of loops; a loop
carries its UV coordinate and the index of the vertex it is attached to). -/
structure Mesh where
  vertices : List Vec3
  hasUV : Bool
  faces : List (List (UV × Nat))
  deriving DecidableEq, Repr

/-- Dictionary lookup `uv_map[uv_coord]` / the `uv_coord in uv_map` test. -/
def lookupUV : UVMap → UV → Option (List Nat)
  | [], _ => none
  | (k, vs) :: rest, key => if k = key then some vs else lookupUV rest key

/-- One iteration of the loop body of `get_uv_vertex_map`:
`if uv_coord in uv_map: (append vert_idx if absent) else: uv_map[uv_coord] = [vert_idx]`. -/
def insertLoop : UVMap → UV → Nat → UVMap
  | [], key, idx => [(key, [idx])]
  | (k, vs) :: rest, key, idx =>
    if k = key then (k, if idx ∈ vs then vs else vs ++ [idx]) :: rest
    else (k, vs) :: insertLoop rest key idx

/-- `get_uv_vertex_map(obj)`: returns a dictionary mapping quantized UV
coordinates to vertex indices; empty when there is no active UV layer. -/
def get_uv_vertex_map (m : Mesh) : UVMap :=
  if m.hasUV = false then []
  else m.faces.flatten.foldl (fun acc l => insertLoop acc (quantUV l.1) l.2) []

/-- `UVShapeKeyTarget`: a target binding (UI-only `name` field omitted). -/
structure Target where
  mesh : Option Mesh
  value : ℚ
  store_original : Bool
  original_coords : List Vec3
  deriving DecidableEq, Repr

/-- `UVShapeKeySettings` (UI-only `active_target_index` omitted). -/
structure Settings where
  targets : List Target
  base_coords : List Vec3
  initialized : Bool
  deriving DecidableEq, Repr

/-- The lazy target-baseline capture inside the target loop:
`if not target.store_original: store_coordinates(...); target.store_original = True`. -/
def captureTarget (t : Target) (msh : Mesh) : Target :=
  if t.store_original then t
  else { t with original_coords := msh.vertices, store_original := true }

/-- The per-target state change performed by one pass of the target loop:
skipped targets are untouched, active ones have their baseline captured. -/
def stepTarget (t : Target) : Target :=
  match t.mesh with
  | none => t
  | some msh => if |t.value| < tol6 then t else captureTarget t msh

/-- The UV-matching cross product
(`for uv_coord, source_verts ...: if uv_coord in target_uv_map: for source_vert ...: for target_vert ...`),
in iteration order. -/
def collectPairs (sm tmap : UVMap) : List (Nat × Nat) :=
  sm.flatMap (fun kv =>
    match lookupUV tmap kv.1 with
    | none => []
    | some tverts => kv.2.flatMap (fun s => tverts.map (fun tv => (s, tv))))

/-- The `(source_vert, delta, value)` records one target appends into
`vertex_deltas` (empty when the target is skipped); deltas are computed against
the baseline captured by `captureTarget`, and insignificant deltas are dropped
(`if np.any(np.abs(delta) > 1e-6)`). -/
def targetRecords (sm : UVMap) (orig : List Vec3) (t : Target) : List (Nat × Vec3 × ℚ) :=
  match t.mesh with
  | none => []
  | some msh =>
    if |t.value| < tol6 then []
    else
      (collectPairs sm (get_uv_vertex_map msh)).filterMap (fun p =>
        let delta := Vec3.sub (((captureTarget t msh).original_coords).getD p.2 vzero)
          (orig.getD p.1 vzero)
        if sigVec delta then some (p.1, delta, t.value) else none)

/-- All records produced by the target loop, in target order. -/
def allRecords (sm : UVMap) (orig : List Vec3) (targets : List Target) :
    List (Nat × Vec3 × ℚ) :=
  targets.flatMap (targetRecords sm orig)

/-- The bucket `vertex_deltas[i]`: the records whose source vertex is `i`,
in emission order. -/
def recordsFor (recs : List (Nat × Vec3 × ℚ)) (i : Nat) : List (Vec3 × ℚ) :=
  (recs.filter (fun r => r.1 == i)).map (fun r => r.2)

/-- One step of the greedy grouping loop: the new delta joins the first group
whose representative is within `tolerance = 1e-5`, else starts a new group at
the end (Python dict insertion order). -/
def addToGroups : List (ℚ × List ℚ) → ℚ → ℚ → List (ℚ × List ℚ)
  | [], d, v => [(d, [v])]
  | (g, vs) :: rest, d, v =>
    if |d - g| < tol5 then (g, vs ++ [v]) :: rest
    else (g, vs) :: addToGroups rest d v

/-- `unique_groups` after the grouping loop over `zip(dim_deltas, values_array)`. -/
def groupDeltas (pairs : List (ℚ × ℚ)) : List (ℚ × List ℚ) :=
  pairs.foldl (fun gs p => addToGroups gs p.1 p.2) []

/-- Python `max` over a nonempty list (signed maximum); 0 on the empty list,
which the source never hits since groups are created nonempty. -/
def maxList : List ℚ → ℚ
  | [] => 0
  | [v] => v
  | v :: rest => max v (maxList rest)

/-- `final_delta = sum(delta * max(values) for groups)`. -/
def final_delta (pairs : List (ℚ × ℚ)) : ℚ :=
  (groupDeltas pairs).foldl (fun acc g => acc + g.1 * maxList g.2) 0

/-- One axis of the per-vertex blend: skipped (left at baseline) when no axis
delta is significant, else baseline plus the grouped-and-max-weighted sum. -/
def blendAxis (base : ℚ) (pairs : List (ℚ × ℚ)) : ℚ :=
  if ∃ p ∈ pairs, sig p.1 then base + final_delta pairs else base

/-- The `(axisDelta, weight)` pairs of a vertex's records on one axis
(`deltas_array[:, dim]` zipped with `values_array`). -/
def axisPairs (records : List (Vec3 × ℚ)) (a : Fin 3) : List (ℚ × ℚ) :=
  records.map (fun r => (r.1.nth a, r.2))

/-- The full per-vertex blend over the three axes. -/
def blendVertex (base : Vec3) (records : List (Vec3 × ℚ)) : Vec3 :=
  ⟨blendAxis base.x (axisPairs records 0),
   blendAxis base.y (axisPairs records 1),
   blendAxis base.z (axisPairs records 2)⟩

/-- `final_coords` after the per-vertex processing loop
(`vertex_deltas` is keyed by `range(len(original_coords))`). -/
def finalCoords (orig : List Vec3) (recs : List (Nat × Vec3 × ℚ)) : List Vec3 :=
  (List.range orig.length).map (fun i => blendVertex (orig.getD i vzero) (recordsFor recs i))

/-- The write-back loop `for i, coord in enumerate(final_coords): obj.data.vertices[i].co = ...`:
the computed coordinates overwrite the mesh's vertex list positionally. -/
def writeBack : List Vec3 → List Vec3 → List Vec3
  | old, [] => old
  | [], _ :: _ => []
  | _ :: old, c :: cs => c :: writeBack old cs

/-- The base-baseline capture at the top of `execute`:
`if not settings.initialized: store_coordinates(settings.base_coords, ...)`. -/
def initSettings (obj : Mesh) (s : Settings) : Settings :=
  if s.initialized then s
  else { s with base_coords := obj.vertices, initialized := true }

/-- The outcome of one operator call: the mesh's vertex positions afterwards,
the settings afterwards, and whether it returned `FINISHED` (vs `CANCELLED`). -/
structure ExecResult where
  vertices : List Vec3
  settings : Settings
  finished : Bool
  deriving DecidableEq, Repr

/-- `UpdateUVShapeKeys.execute` (the recompute): cancelled on an empty vertex
list; otherwise capture the base baseline if needed, collect the per-vertex
delta records from all active targets (capturing their baselines lazily),
blend, and write the result back. -/
def updateExecute (obj : Mesh) (s : Settings) : ExecResult :=
  if obj.vertices = [] then ⟨obj.vertices, s, false⟩
  else
    ⟨writeBack obj.vertices
        (finalCoords (initSettings obj s).base_coords
          (allRecords (get_uv_vertex_map obj) (initSettings obj s).base_coords
            (initSettings obj s).targets)),
      { initSettings obj s with targets := (initSettings obj s).targets.map stepTarget },
      true⟩

/-- `for target in settings.targets: target.value = 0.0`. -/
def zeroTargets (ts : List Target) : List Target :=
  ts.map (fun t => { t with value := 0 })

/-- `SaveUVShapeDeformation.execute` (the commit): recompute, store the
deformed shape as the new base baseline, zero all weights, recompute again. -/
def saveExecute (obj : Mesh) (s : Settings) : ExecResult :=
  if obj.vertices = [] then ⟨obj.vertices, s, false⟩
  else
    let r1 := updateExecute obj s
    let r2 := updateExecute { obj with vertices := r1.vertices }
      { r1.settings with
        base_coords := r1.vertices
        targets := zeroTargets r1.settings.targets }
    ⟨r2.vertices, r2.settings, true⟩

/-- `ResetUVShapeKeys.execute`: zero all weights and recompute. -/
def resetExecute (obj : Mesh) (s : Settings) : ExecResult :=
  let r := updateExecute obj { s with targets := zeroTargets s.targets }
  ⟨r.vertices, r.settings, true⟩

/-! ### Concrete fixtures used to exercise the definitions -/

/-- A one-vertex base mesh at the origin whose single face loop carries UV
coordinate (0, 0). -/
def exBase : Mesh := { vertices := [vzero], hasUV := true, faces := [[((0, 0), 0)]] }

/-- A one-vertex target mesh at x = 1 with the same UV layout as `exBase`. -/
def exMoved : Mesh := { vertices := [⟨1, 0, 0⟩], hasUV := true, faces := [[((0, 0), 0)]] }

/-- A binding to `exMoved` at weight -1/2, baseline not yet captured. -/
def exTargetNeg : Target :=
  { mesh := some exMoved, value := -1/2, store_original := false, original_coords := [] }

/-- A binding to `exMoved` at weight 1/2, baseline not yet captured. -/
def exTargetHalf : Target :=
  { mesh := some exMoved, value := 1/2, store_original := false, original_coords := [] }

/-- A binding with no mesh reference. -/
def exTargetNone : Target :=
  { mesh := none, value := 1, store_original := false, original_coords := [] }

/-- A binding to `exMoved` at weight 1/2 whose baseline is already captured. -/
def exTargetCaptured : Target :=
  { mesh := some exMoved, value := 1/2, store_original := true, original_coords := [⟨1, 0, 0⟩] }

end UVShape

namespace UVShape

/-! ## Basic lemmas about the embedded operations -/

@[simp] lemma nth_zero (v : Vec3) : v.nth 0 = v.x := rfl

@[simp] lemma nth_one (v : Vec3) : v.nth 1 = v.y := rfl

@[simp] lemma nth_two (v : Vec3) : v.nth 2 = v.z := rfl

lemma nth_sub (u v : Vec3) (a : Fin 3) : (u.sub v).nth a = u.nth a - v.nth a := by
  fin_cases a <;> rfl

lemma not_sigVec_nth {v : Vec3} (h : ¬ sigVec v) (a : Fin 3) : ¬ sig (v.nth a) := by
  simp only [sigVec, not_or] at h
  fin_cases a
  · exact h.1
  · exact h.2.1
  · exact h.2.2

lemma blendVertex_nth (b : Vec3) (rs : List (Vec3 × ℚ)) (a : Fin 3) :
    (blendVertex b rs).nth a = blendAxis (b.nth a) (axisPairs rs a) := by
  fin_cases a <;> rfl

lemma blendVertex_nil (b : Vec3) : blendVertex b [] = b := by
  cases b; simp [blendVertex, axisPairs, blendAxis]

lemma writeBack_nil : ∀ (old : List Vec3), writeBack old [] = old
  | [] => rfl
  | _ :: _ => rfl

lemma writeBack_length : ∀ (old new : List Vec3), (writeBack old new).length = old.length
  | old, [] => by rw [writeBack_nil]
  | [], _ :: _ => rfl
  | _ :: old, c :: cs => by simp [writeBack, writeBack_length old cs]

lemma writeBack_full : ∀ (old new : List Vec3), new.length = old.length →
    writeBack old new = new
  | old, [], h => by rw [writeBack_nil]; exact (List.length_eq_zero.mp h.symm)
  | [], _ :: _, h => by simp at h
  | _ :: old, c :: cs, h => by
    simp only [List.length_cons, Nat.succ.injEq] at h
    simp [writeBack, writeBack_full old cs h]

lemma writeBack_idem : ∀ (old new : List Vec3),
    writeBack (writeBack old new) new = writeBack old new
  | old, [] => by rw [writeBack_nil]
  | [], _ :: _ => rfl
  | _ :: old, c :: cs => by simp [writeBack, writeBack_idem old cs]

lemma getD_range_map : ∀ (n : Nat) (f : Nat → Vec3) (i : Nat), i < n →
    ((List.range n).map f).getD i vzero = f i := by
  intro n
  induction n with
  | zero => intro f i hi; exact absurd hi (Nat.not_lt_zero i)
  | succ m ih =>
    intro f i hi
    rw [List.range_succ_eq_map]
    cases i with
    | zero => rfl
    | succ j =>
      have hj : j < m := Nat.lt_of_succ_lt_succ hi
      simp only [List.map_cons, List.map_map, List.getD_cons_succ]
      exact ih (f ∘ Nat.succ) j hj

lemma range_map_getD_self : ∀ (l : List Vec3),
    (List.range l.length).map (fun i => l.getD i vzero) = l := by
  intro l
  induction l with
  | nil => rfl
  | cons a t ih =>
    rw [List.length_cons, List.range_succ_eq_map]
    simp only [List.map_cons, List.getD_cons_zero, List.map_map]
    have hmap : (List.range t.length).map ((fun i => (a :: t).getD i vzero) ∘ Nat.succ)
        = (List.range t.length).map (fun i => t.getD i vzero) :=
      List.map_congr_left (fun i _ => rfl)
    rw [hmap, ih]

lemma finalCoords_length (orig : List Vec3) (recs : List (Nat × Vec3 × ℚ)) :
    (finalCoords orig recs).length = orig.length := by
  simp [finalCoords]

lemma finalCoords_getD (orig : List Vec3) (recs : List (Nat × Vec3 × ℚ)) (i : Nat)
    (hi : i < orig.length) :
    (finalCoords orig recs).getD i vzero
      = blendVertex (orig.getD i vzero) (recordsFor recs i) :=
  getD_range_map orig.length _ i hi

lemma recordsFor_nil (i : Nat) : recordsFor [] i = [] := rfl

lemma finalCoords_nil_recs (orig : List Vec3) : finalCoords orig [] = orig := by
  unfold finalCoords
  calc (List.range orig.length).map (fun i => blendVertex (orig.getD i vzero) (recordsFor [] i))
      = (List.range orig.length).map (fun i => orig.getD i vzero) := by
        apply List.map_congr_left; intro i _; rw [recordsFor_nil, blendVertex_nil]
    _ = orig := range_map_getD_self orig

end UVShape

namespace UVShape

/-! ## Lemmas about skipping, capture and the record stream -/

lemma targetRecords_skip {t : Target} (sm : UVMap) (orig : List Vec3)
    (h : t.mesh = none ∨ |t.value| < tol6) : targetRecords sm orig t = [] := by
  rcases h with h | h
  · simp [targetRecords, h]
  · cases ht : t.mesh with
    | none => simp [targetRecords, ht]
    | some msh => simp [targetRecords, ht, h]

lemma allRecords_nil (sm : UVMap) (orig : List Vec3) : allRecords sm orig [] = [] := rfl

lemma allRecords_cons (sm : UVMap) (orig : List Vec3) (t : Target) (ts : List Target) :
    allRecords sm orig (t :: ts) = targetRecords sm orig t ++ allRecords sm orig ts := by
  simp [allRecords]

lemma allRecords_append (sm : UVMap) (orig : List Vec3) (ts us : List Target) :
    allRecords sm orig (ts ++ us) = allRecords sm orig ts ++ allRecords sm orig us := by
  simp [allRecords]

lemma allRecords_skipAll {ts : List Target} (sm : UVMap) (orig : List Vec3)
    (h : ∀ t ∈ ts, t.mesh = none ∨ |t.value| < tol6) : allRecords sm orig ts = [] := by
  induction ts with
  | nil => rfl
  | cons t rest ih =>
    rw [allRecords_cons, targetRecords_skip sm orig (h t (List.mem_cons_self t rest)),
      List.nil_append]
    exact ih (fun u hu => h u (List.mem_cons_of_mem t hu))

lemma stepTarget_skip {t : Target} (h : t.mesh = none ∨ |t.value| < tol6) :
    stepTarget t = t := by
  rcases h with h | h
  · simp [stepTarget, h]
  · cases ht : t.mesh with
    | none => simp [stepTarget, ht]
    | some msh => simp [stepTarget, ht, h]

lemma stepTarget_captured {t : Target} (h : t.store_original = true) : stepTarget t = t := by
  cases ht : t.mesh with
  | none => simp [stepTarget, ht]
  | some msh =>
    by_cases hv : |t.value| < tol6
    · simp [stepTarget, ht, hv]
    · simp [stepTarget, captureTarget, ht, hv, h]

lemma captureTarget_mesh (t : Target) (msh : Mesh) : (captureTarget t msh).mesh = t.mesh := by
  unfold captureTarget
  by_cases h : t.store_original <;> simp [h]

lemma captureTarget_value (t : Target) (msh : Mesh) :
    (captureTarget t msh).value = t.value := by
  unfold captureTarget
  by_cases h : t.store_original <;> simp [h]

lemma captureTarget_stored (t : Target) (msh : Mesh) :
    (captureTarget t msh).store_original = true := by
  unfold captureTarget
  by_cases h : t.store_original <;> simp [h]

lemma captureTarget_idem (t : Target) (msh msh2 : Mesh) :
    captureTarget (captureTarget t msh) msh2 = captureTarget t msh := by
  by_cases h : t.store_original <;> simp [captureTarget, h]

lemma stepTarget_active {t : Target} {msh : Mesh} (ht : t.mesh = some msh)
    (hv : ¬ |t.value| < tol6) : stepTarget t = captureTarget t msh := by
  simp [stepTarget, ht, hv]

lemma stepTarget_idem (t : Target) : stepTarget (stepTarget t) = stepTarget t := by
  cases ht : t.mesh with
  | none => rw [stepTarget_skip (Or.inl ht), stepTarget_skip (Or.inl ht)]
  | some msh =>
    by_cases hv : |t.value| < tol6
    · rw [stepTarget_skip (Or.inr hv), stepTarget_skip (Or.inr hv)]
    · rw [stepTarget_active ht hv]
      have hmesh : (captureTarget t msh).mesh = some msh := by
        rw [captureTarget_mesh, ht]
      have hval : ¬ |(captureTarget t msh).value| < tol6 := by
        rw [captureTarget_value]; exact hv
      rw [stepTarget_active hmesh hval, captureTarget_idem]

lemma targetRecords_stepTarget (sm : UVMap) (orig : List Vec3) (t : Target) :
    targetRecords sm orig (stepTarget t) = targetRecords sm orig t := by
  cases ht : t.mesh with
  | none => rw [stepTarget_skip (Or.inl ht)]
  | some msh =>
    by_cases hv : |t.value| < tol6
    · rw [stepTarget_skip (Or.inr hv)]
    · rw [stepTarget_active ht hv]
      have hmesh : (captureTarget t msh).mesh = some msh := by
        rw [captureTarget_mesh, ht]
      have hval : (captureTarget t msh).value = t.value := captureTarget_value t msh
      simp only [targetRecords, hmesh, ht, hval, captureTarget_idem]

lemma map_stepTarget_skipAll {ts : List Target}
    (h : ∀ t ∈ ts, t.mesh = none ∨ |t.value| < tol6) : ts.map stepTarget = ts := by
  induction ts with
  | nil => rfl
  | cons t rest ih =>
    rw [List.map_cons, stepTarget_skip (h t (List.mem_cons_self t rest)),
      ih (fun u hu => h u (List.mem_cons_of_mem t hu))]

lemma map_stepTarget_capturedAll {ts : List Target}
    (h : ∀ t ∈ ts, t.store_original = true) : ts.map stepTarget = ts := by
  induction ts with
  | nil => rfl
  | cons t rest ih =>
    rw [List.map_cons, stepTarget_captured (h t (List.mem_cons_self t rest)),
      ih (fun u hu => h u (List.mem_cons_of_mem t hu))]

lemma zeroTargets_value {ts : List Target} {t : Target} (h : t ∈ zeroTargets ts) :
    t.value = 0 := by
  unfold zeroTargets at h
  rcases List.mem_map.mp h with ⟨u, _, rfl⟩
  rfl

lemma zeroTargets_skip {ts : List Target} (t : Target) (h : t ∈ zeroTargets ts) :
    t.mesh = none ∨ |t.value| < tol6 := by
  right
  rw [zeroTargets_value h]
  norm_num [tol6]

/-! ## Lemmas about one recompute pass -/

lemma initSettings_initialized (obj : Mesh) (s : Settings) :
    (initSettings obj s).initialized = true := by
  unfold initSettings
  by_cases h : s.initialized
  · rw [if_pos h]; exact h
  · rw [if_neg h]

lemma initSettings_of_init {s : Settings} (obj : Mesh) (h : s.initialized = true) :
    initSettings obj s = s := by
  unfold initSettings; rw [if_pos h]

lemma initSettings_targets (obj : Mesh) (s : Settings) :
    (initSettings obj s).targets = s.targets := by
  unfold initSettings
  by_cases h : s.initialized
  · rw [if_pos h]
  · rw [if_neg h]

lemma updateExecute_of_ne {obj : Mesh} (s : Settings) (hv : obj.vertices ≠ []) :
    updateExecute obj s =
      ⟨writeBack obj.vertices
          (finalCoords (initSettings obj s).base_coords
            (allRecords (get_uv_vertex_map obj) (initSettings obj s).base_coords
              (initSettings obj s).targets)),
        { initSettings obj s with targets := (initSettings obj s).targets.map stepTarget },
        true⟩ := by
  unfold updateExecute; rw [if_neg hv]

/-- A recompute in which every target is skipped (no mesh, or weight below the
significance threshold) writes the base baseline back and leaves the settings
untouched. -/
lemma update_allZero {obj : Mesh} {s : Settings} (hv : obj.vertices ≠ [])
    (hinit : s.initialized = true) (hlen : s.base_coords.length = obj.vertices.length)
    (hz : ∀ t ∈ s.targets, t.mesh = none ∨ |t.value| < tol6) :
    updateExecute obj s = ⟨s.base_coords, s, true⟩ := by
  rw [updateExecute_of_ne s hv, initSettings_of_init obj hinit]
  rw [allRecords_skipAll _ _ hz, finalCoords_nil_recs, writeBack_full _ _ hlen,
    map_stepTarget_skipAll hz]

end UVShape

namespace UVShape

/-! ## Projection forms of one recompute, and re-running a recompute -/

lemma updateExecute_vertices_of_ne {obj : Mesh} (s : Settings) (hv : obj.vertices ≠ []) :
    (updateExecute obj s).vertices =
      writeBack obj.vertices
        (finalCoords (initSettings obj s).base_coords
          (allRecords (get_uv_vertex_map obj) (initSettings obj s).base_coords
            (initSettings obj s).targets)) := by
  rw [updateExecute_of_ne s hv]

lemma updateExecute_settings_of_ne {obj : Mesh} (s : Settings) (hv : obj.vertices ≠ []) :
    (updateExecute obj s).settings =
      { initSettings obj s with targets := (initSettings obj s).targets.map stepTarget } := by
  rw [updateExecute_of_ne s hv]

lemma updateExecute_vertices_length (obj : Mesh) (s : Settings) :
    (updateExecute obj s).vertices.length = obj.vertices.length := by
  by_cases hv : obj.vertices = []
  · unfold updateExecute; rw [if_pos hv]
  · rw [updateExecute_vertices_of_ne s hv]; exact writeBack_length _ _

lemma updateExecute_vertices_ne {obj : Mesh} (s : Settings) (hv : obj.vertices ≠ []) :
    (updateExecute obj s).vertices ≠ [] := by
  intro h
  apply hv
  have hl := updateExecute_vertices_length obj s
  rw [h] at hl
  exact List.length_eq_zero.mp hl.symm

lemma updateExecute_settings_initialized {obj : Mesh} (s : Settings)
    (hv : obj.vertices ≠ []) : (updateExecute obj s).settings.initialized = true := by
  rw [updateExecute_settings_of_ne s hv]
  exact initSettings_initialized obj s

lemma allRecords_map_stepTarget (sm : UVMap) (orig : List Vec3) (ts : List Target) :
    allRecords sm orig (ts.map stepTarget) = allRecords sm orig ts := by
  induction ts with
  | nil => rfl
  | cons t rest ih =>
    rw [List.map_cons, allRecords_cons, allRecords_cons, targetRecords_stepTarget, ih]

lemma map_stepTarget_idem (ts : List Target) :
    (ts.map stepTarget).map stepTarget = ts.map stepTarget := by
  rw [List.map_map]
  exact List.map_congr_left (fun t _ => stepTarget_idem t)

/-- A recompute in which every target is skipped, without assuming the base
baseline is already captured. -/
lemma update_allSkip {obj : Mesh} {s : Settings} (hv : obj.vertices ≠ [])
    (hlen : s.initialized = true → s.base_coords.length = obj.vertices.length)
    (hz : ∀ t ∈ s.targets, t.mesh = none ∨ |t.value| < tol6) :
    updateExecute obj s = ⟨(initSettings obj s).base_coords, initSettings obj s, true⟩ := by
  have hlen2 : (initSettings obj s).base_coords.length = obj.vertices.length := by
    unfold initSettings
    by_cases h : s.initialized
    · rw [if_pos h]; exact hlen h
    · rw [if_neg h]
  have hz2 : ∀ t ∈ (initSettings obj s).targets, t.mesh = none ∨ |t.value| < tol6 := by
    rw [initSettings_targets]; exact hz
  rw [updateExecute_of_ne s hv, allRecords_skipAll _ _ hz2, finalCoords_nil_recs,
    writeBack_full _ _ hlen2, initSettings_targets, map_stepTarget_skipAll hz,
    ← initSettings_targets obj s]

lemma updateExecute_settings_targets_of_ne {obj : Mesh} (s : Settings)
    (hv : obj.vertices ≠ []) :
    (updateExecute obj s).settings.targets = (initSettings obj s).targets.map stepTarget := by
  rw [updateExecute_settings_of_ne s hv]

lemma updateExecute_settings_base_of_ne {obj : Mesh} (s : Settings)
    (hv : obj.vertices ≠ []) :
    (updateExecute obj s).settings.base_coords = (initSettings obj s).base_coords := by
  rw [updateExecute_settings_of_ne s hv]

/-- Running a recompute again, on the mesh state and settings produced by a
previous recompute, reproduces the previous recompute's outcome. -/
lemma updateExecute_restep {obj obj2 : Mesh} {s : Settings}
    (hv : obj.vertices ≠ []) (hfaces : obj2.faces = obj.faces)
    (hUV : obj2.hasUV = obj.hasUV)
    (hv2 : obj2.vertices = (updateExecute obj s).vertices) :
    updateExecute obj2 (updateExecute obj s).settings = updateExecute obj s := by
  have hne2 : obj2.vertices ≠ [] := by
    rw [hv2]; exact updateExecute_vertices_ne s hv
  have hinit1 : (updateExecute obj s).settings.initialized = true :=
    updateExecute_settings_initialized s hv
  have hmap : get_uv_vertex_map obj2 = get_uv_vertex_map obj := by
    unfold get_uv_vertex_map; rw [hfaces, hUV]
  have htgts : (updateExecute obj s).settings.targets.map stepTarget
      = (updateExecute obj s).settings.targets := by
    rw [updateExecute_settings_targets_of_ne s hv]
    exact map_stepTarget_idem _
  have hsettings : { (updateExecute obj s).settings with
      targets := (updateExecute obj s).settings.targets.map stepTarget }
      = (updateExecute obj s).settings := by
    rw [htgts]
  have hfin : (updateExecute obj s).finished = true := by
    rw [updateExecute_of_ne s hv]
  rw [updateExecute_of_ne _ hne2, initSettings_of_init obj2 hinit1, hmap, hv2, hsettings,
    updateExecute_settings_base_of_ne s hv, updateExecute_settings_targets_of_ne s hv,
    allRecords_map_stepTarget, updateExecute_vertices_of_ne s hv, writeBack_idem,
    ← updateExecute_vertices_of_ne s hv, ← hfin]

end UVShape

namespace UVShape

/-! ## Lemmas about the grouping blend -/

lemma maxList_pair (a b : ℚ) : maxList [a, b] = max a b := rfl

lemma final_delta_single (d w : ℚ) : final_delta [(d, w)] = d * w := by
  simp [final_delta, groupDeltas, addToGroups, maxList]

lemma blendAxis_single_sig (base : ℚ) {d : ℚ} (w : ℚ) (hs : sig d) :
    blendAxis base [(d, w)] = base + d * w := by
  unfold blendAxis
  rw [if_pos ⟨(d, w), List.mem_cons_self _ _, hs⟩, final_delta_single]

lemma blendAxis_nosig (base : ℚ) {pairs : List (ℚ × ℚ)}
    (h : ¬ ∃ p ∈ pairs, sig p.1) : blendAxis base pairs = base := by
  unfold blendAxis
  rw [if_neg h]

lemma sig_zero : ¬ sig (0 : ℚ) := by
  norm_num [sig, tol6]

/-! ## Characterizing the records of one active binding -/

lemma filter_filterMap_fst (F : Nat × Nat → Option (Nat × Vec3 × ℚ))
    (hF : ∀ p q, F p = some q → q.1 = p.1) (i : Nat) (l : List (Nat × Nat)) :
    (l.filterMap F).filter (fun r => r.1 == i)
      = (l.filter (fun p => p.1 == i)).filterMap F := by
  induction l with
  | nil => rfl
  | cons p rest ih =>
    rw [List.filterMap_cons, List.filter_cons]
    cases hFp : F p with
    | none => cases hpi : (p.1 == i) <;> simp [hpi, hFp, ih]
    | some q =>
      have hq1 : q.1 = p.1 := hF p q hFp
      cases hpi : (p.1 == i) <;> simp [hpi, hFp, hq1, ih]

lemma targetRecords_active {t : Target} {msh : Mesh} (sm : UVMap) (orig : List Vec3)
    (ht : t.mesh = some msh) (hv : ¬ |t.value| < tol6) :
    targetRecords sm orig t
      = (collectPairs sm (get_uv_vertex_map msh)).filterMap (fun p =>
          let delta := Vec3.sub (((captureTarget t msh).original_coords).getD p.2 vzero)
            (orig.getD p.1 vzero)
          if sigVec delta then some (p.1, delta, t.value) else none) := by
  simp only [targetRecords, ht]
  rw [if_neg hv]

lemma recordsFor_append (a b : List (Nat × Vec3 × ℚ)) (i : Nat) :
    recordsFor (a ++ b) i = recordsFor a i ++ recordsFor b i := by
  unfold recordsFor
  rw [List.filter_append, List.map_append]

/-- When vertex `s` has exactly one matched pair `(s, tv)` in the UV cross
product, its record bucket is the one delta of that pair (or empty when the
delta is insignificant). -/
lemma recordsFor_single_pair (sm tmap : UVMap) (orig tb : List Vec3) (w : ℚ)
    (s tv : Nat)
    (hpair : (collectPairs sm tmap).filter (fun p => p.1 == s) = [(s, tv)]) :
    recordsFor ((collectPairs sm tmap).filterMap (fun p =>
        let delta := Vec3.sub (tb.getD p.2 vzero) (orig.getD p.1 vzero)
        if sigVec delta then some (p.1, delta, w) else none)) s
      = (if sigVec (Vec3.sub (tb.getD tv vzero) (orig.getD s vzero)) then
          [(Vec3.sub (tb.getD tv vzero) (orig.getD s vzero), w)] else []) := by
  have hF : ∀ p q, (fun (p : Nat × Nat) =>
      let delta := Vec3.sub (tb.getD p.2 vzero) (orig.getD p.1 vzero)
      if sigVec delta then some (p.1, delta, w) else none) p = some q → q.1 = p.1 := by
    intro p q h
    dsimp only at h
    split at h
    · injection h with h2
      rw [← h2]
    · exact absurd h (by simp)
  unfold recordsFor
  rw [filter_filterMap_fst _ hF s _, hpair]
  simp only [List.filterMap_cons, List.filterMap_nil]
  by_cases hsd : sigVec (Vec3.sub (tb.getD tv vzero) (orig.getD s vzero))
  · rw [if_pos hsd, if_pos hsd]; rfl
  · rw [if_neg hsd, if_neg hsd]; rfl

end UVShape

namespace UVShape

/-! ## Claim theorems -/

/-- C1 (counterexample): the claim omits the per-axis significance skip.  On a
vertex whose axis-0 collected pair list is `[(1/2000000, 1)]` (one pair, delta
5e-7 below the 1e-6 threshold; the record itself was kept because its axis 1
delta is significant), the blender leaves axis 0 exactly at the baseline, while
the claimed formula `baseline + sum of group contributions` adds 5e-7. -/
theorem C1_counterexample :
    ¬ (((finalCoords [vzero] [(0, (⟨1/2000000, 1, 0⟩ : Vec3), 1)]).getD 0 vzero).nth 0
      = (([vzero] : List Vec3).getD 0 vzero).nth 0
        + final_delta (axisPairs (recordsFor [(0, (⟨1/2000000, 1, 0⟩ : Vec3), 1)] 0) 0)) := by
  norm_num [finalCoords, blendVertex, blendAxis, axisPairs, recordsFor, final_delta,
    groupDeltas, addToGroups, maxList, sig, sigVec, tol5, tol6, vzero, abs_lt, lt_abs,
    List.filter_cons, List.range_succ]

/-- C1 (amended): in the delta blender, for every base vertex `i` and spatial
axis `a`, when at least one collected `(axisDelta, weight)` pair on that axis
has a delta exceeding the significance threshold 1e-6, the final axis
coordinate equals the baseline coordinate plus the sum over the greedily formed
groups of (representative delta) * (signed maximum member weight); when no
collected pair on the axis is significant, the axis keeps exactly its baseline
coordinate. -/
theorem C1_blender_axis_formula (orig : List Vec3) (recs : List (Nat × Vec3 × ℚ))
    (i : Nat) (a : Fin 3) (hi : i < orig.length) :
    ((∃ p ∈ axisPairs (recordsFor recs i) a, sig p.1) →
      ((finalCoords orig recs).getD i vzero).nth a
        = (orig.getD i vzero).nth a + final_delta (axisPairs (recordsFor recs i) a))
    ∧ (¬ (∃ p ∈ axisPairs (recordsFor recs i) a, sig p.1) →
      ((finalCoords orig recs).getD i vzero).nth a = (orig.getD i vzero).nth a) := by
  rw [finalCoords_getD orig recs i hi, blendVertex_nth]
  constructor
  · intro h
    unfold blendAxis
    rw [if_pos h]
  · intro h
    exact blendAxis_nosig _ h

/-- C1 (witness): the amended blender formula holds on a concrete vertex with
one significant record. -/
theorem C1_blender_axis_formula_witness :
    ((finalCoords [vzero] [(0, (⟨1, 0, 0⟩ : Vec3), 1/2)]).getD 0 vzero).nth 0
      = (([vzero] : List Vec3).getD 0 vzero).nth 0
        + final_delta (axisPairs (recordsFor [(0, (⟨1, 0, 0⟩ : Vec3), 1/2)] 0) 0) :=
  (C1_blender_axis_formula [vzero] [(0, ⟨1, 0, 0⟩, 1/2)] 0 0 (by norm_num)).1
    (by norm_num [axisPairs, recordsFor, sig, tol6, List.filter_cons])

/-- C3 (counterexample): the claim's own concrete example is numerically wrong:
axis deltas 0.10 and 0.1003 differ by 3e-4, far MORE than the grouping
tolerance 1e-5, so they form two groups (not one) and both contributions are
summed (the 0.5-weighted one is not discarded). -/
theorem C3_counterexample :
    (groupDeltas [((1 : ℚ)/10, 1/2), (1003/10000, 4/5)]).length = 2
    ∧ final_delta [((1 : ℚ)/10, 1/2), (1003/10000, 4/5)]
        = (1/10) * (1/2) + (1003/10000) * (4/5) := by
  constructor
  · norm_num [groupDeltas, addToGroups, tol5, abs_lt]
  · norm_num [final_delta, groupDeltas, addToGroups, maxList, tol5, abs_lt]

/-- C3 (amended): for two collected pairs on the same vertex and axis: if the
deltas differ by at least the grouping tolerance 1e-5 the two contributions
(each delta times its own weight) are summed; if they differ by less than
1e-5 they form one group and the group's first delta times the higher (signed
maximum) weight is applied once.  The claim's example pair [0.10, 0.1003]
falls in the first case (difference 3e-4 > 1e-5); a genuinely within-tolerance
pair such as [0.10, 0.100003] falls in the second. -/
theorem C3_two_binding_contributions (d1 d2 w1 w2 : ℚ) :
    (tol5 ≤ |d2 - d1| → final_delta [(d1, w1), (d2, w2)] = d1 * w1 + d2 * w2)
    ∧ (|d2 - d1| < tol5 → final_delta [(d1, w1), (d2, w2)] = d1 * max w1 w2) := by
  constructor
  · intro h
    have h2 : ¬ |d2 - d1| < tol5 := not_lt.mpr h
    norm_num [final_delta, groupDeltas, addToGroups, maxList, h2]
  · intro h
    norm_num [final_delta, groupDeltas, addToGroups, maxList, h]

/-- C3 (witness): both branches of the amended two-binding rule, evaluated at
the claim's weights 0.5 and 0.8. -/
theorem C3_two_binding_contributions_witness :
    final_delta [((1 : ℚ)/10, 1/2), (34/100, 4/5)] = (1/10) * (1/2) + (34/100) * (4/5)
    ∧ final_delta [((1 : ℚ)/10, 1/2), (100003/1000000, 4/5)] = (1/10) * max (1/2) (4/5) :=
  ⟨(C3_two_binding_contributions (1/10) (34/100) (1/2) (4/5)).1
      (le_abs.mpr (Or.inl (by norm_num [tol5]))),
   (C3_two_binding_contributions (1/10) (100003/1000000) (1/2) (4/5)).2
      (abs_lt.mpr ⟨by norm_num [tol5], by norm_num [tol5]⟩)⟩

/-- C4: when every binding either has no mesh reference or a weight of
magnitude below 1e-6, a recompute emits no delta record at all, leaves every
binding untouched (no baseline capture), and writes back exactly the base
baseline. -/
theorem C4_inactive_bindings_skipped (obj : Mesh) (s : Settings)
    (hv : obj.vertices ≠ [])
    (hlen : s.initialized = true → s.base_coords.length = obj.vertices.length)
    (hskip : ∀ t ∈ s.targets, t.mesh = none ∨ |t.value| < tol6) :
    (updateExecute obj s).vertices = (updateExecute obj s).settings.base_coords
    ∧ (updateExecute obj s).settings.targets = s.targets
    ∧ allRecords (get_uv_vertex_map obj) (initSettings obj s).base_coords
        (initSettings obj s).targets = [] := by
  refine ⟨?_, ?_, ?_⟩
  · rw [update_allSkip hv hlen hskip]
  · rw [update_allSkip hv hlen hskip]
    exact initSettings_targets obj s
  · refine allRecords_skipAll _ _ ?_
    rw [initSettings_targets]
    exact hskip

/-- C4 (witness): a recompute over one binding with no mesh reference returns
the (just-captured) base baseline and produces no records. -/
theorem C4_inactive_bindings_skipped_witness :
    (updateExecute exBase { targets := [exTargetNone], base_coords := [], initialized := false }).vertices
      = (updateExecute exBase { targets := [exTargetNone], base_coords := [], initialized := false }).settings.base_coords
    ∧ (updateExecute exBase { targets := [exTargetNone], base_coords := [], initialized := false }).settings.targets
      = [exTargetNone]
    ∧ allRecords (get_uv_vertex_map exBase)
        (initSettings exBase { targets := [exTargetNone], base_coords := [], initialized := false }).base_coords
        (initSettings exBase { targets := [exTargetNone], base_coords := [], initialized := false }).targets = [] :=
  C4_inactive_bindings_skipped exBase _ (by simp [exBase]) (by simp)
    (by simp [exTargetNone])

/-- C7: a recompute is deterministic and pure in its inputs: re-running it on
the exact state it produced (same baselines and bindings, the mesh now holding
the written-back positions) returns the identical result, bit for bit. -/
theorem C7_recompute_idempotent (obj : Mesh) (s : Settings) :
    updateExecute { obj with vertices := (updateExecute obj s).vertices }
      (updateExecute obj s).settings = updateExecute obj s := by
  by_cases hv : obj.vertices = []
  · have h1 : updateExecute obj s = ⟨obj.vertices, s, false⟩ := by
      unfold updateExecute; rw [if_pos hv]
    rw [h1]
    unfold updateExecute
    simp [hv]
  · exact updateExecute_restep hv rfl rfl rfl

/-- C9: a base vertex for which no delta record was emitted by any binding
keeps exactly its base baseline position. -/
theorem C9_recordless_vertex_untouched (obj : Mesh) (s : Settings) (i : Nat)
    (hv : obj.vertices ≠ []) (hinit : s.initialized = true)
    (hlen : s.base_coords.length = obj.vertices.length)
    (hi : i < s.base_coords.length)
    (hno : recordsFor (allRecords (get_uv_vertex_map obj) s.base_coords s.targets) i = []) :
    (updateExecute obj s).vertices.getD i vzero = s.base_coords.getD i vzero := by
  rw [updateExecute_vertices_of_ne s hv, initSettings_of_init obj hinit,
    writeBack_full _ _ (by rw [finalCoords_length]; exact hlen),
    finalCoords_getD _ _ _ hi, hno, blendVertex_nil]

/-- C9 (witness): with a single meshless binding no record exists for vertex 0,
and the recompute leaves it at the baseline. -/
theorem C9_recordless_vertex_untouched_witness :
    (updateExecute exBase { targets := [exTargetNone], base_coords := [vzero], initialized := true }).vertices.getD 0 vzero
      = ([vzero] : List Vec3).getD 0 vzero :=
  C9_recordless_vertex_untouched exBase _ 0 (by simp [exBase]) rfl (by simp [exBase])
    (by simp) (by simp [allRecords, targetRecords, exTargetNone, recordsFor])

end UVShape

namespace UVShape

/-! ## Baseline immutability and the commit round trip -/

lemma get_uv_vertex_map_set_vertices (obj : Mesh) (v : List Vec3) :
    get_uv_vertex_map { obj with vertices := v } = get_uv_vertex_map obj := rfl

/-- A captured target's records do not depend on its mesh's live vertex
positions: the stored baseline is used for the deltas and the correspondence
index reads only the face-loop UV data. -/
lemma targetRecords_captured_live_irrel (sm : UVMap) (orig : List Vec3)
    {t : Target} {msh : Mesh} (v2 : List Vec3)
    (ht : t.mesh = some msh) (hcap : t.store_original = true) :
    targetRecords sm orig { t with mesh := some { msh with vertices := v2 } }
      = targetRecords sm orig t := by
  by_cases hvl : |t.value| < tol6
  · rw [targetRecords_skip sm orig (Or.inr hvl),
      @targetRecords_skip { t with mesh := some { msh with vertices := v2 } } sm orig
        (Or.inr hvl)]
  · simp [targetRecords, captureTarget, ht, hcap, hvl, get_uv_vertex_map_set_vertices]

lemma update_allZero_vertices {obj : Mesh} {s : Settings} (hv : obj.vertices ≠ [])
    (hinit : s.initialized = true) (hlen : s.base_coords.length = obj.vertices.length)
    (hz : ∀ t ∈ s.targets, t.mesh = none ∨ |t.value| < tol6) :
    (updateExecute obj s).vertices = s.base_coords := by
  rw [update_allZero hv hinit hlen hz]

lemma resetExecute_vertices (obj : Mesh) (s : Settings) :
    (resetExecute obj s).vertices
      = (updateExecute obj { s with targets := zeroTargets s.targets }).vertices := rfl

/-- What the commit operator produces: the recompute result is written back,
becomes the stored base baseline, and all weights end at zero (so the final
consistency recompute reproduces it). -/
lemma saveExecute_spec {obj : Mesh} {s : Settings} (hv : obj.vertices ≠ []) :
    saveExecute obj s
      = ⟨(updateExecute obj s).vertices,
          { (updateExecute obj s).settings with
            base_coords := (updateExecute obj s).vertices
            targets := zeroTargets (updateExecute obj s).settings.targets }, true⟩ := by
  have hv1 : (updateExecute obj s).vertices ≠ [] := updateExecute_vertices_ne s hv
  have hkey := @update_allZero { obj with vertices := (updateExecute obj s).vertices }
      { (updateExecute obj s).settings with
        base_coords := (updateExecute obj s).vertices
        targets := zeroTargets (updateExecute obj s).settings.targets }
      hv1 (updateExecute_settings_initialized s hv) rfl
      (fun t htm => zeroTargets_skip t htm)
  unfold saveExecute
  rw [if_neg hv]
  simp only []
  rw [hkey]

/-- C5: baseline capture is idempotent per session: with the base baseline (and
every target baseline) captured, a recompute leaves the stored snapshots
unchanged; the output does not depend on the base mesh's live vertex positions
(deltas are measured from the stored baseline); and a captured target's records
do not depend on its mesh's live vertex positions either. -/
theorem C5_baselines_immutable (obj : Mesh) (v2 : List Vec3) (s : Settings)
    (t : Target) (msh : Mesh) (v3 : List Vec3)
    (hv : obj.vertices ≠ []) (hinit : s.initialized = true)
    (hlen : s.base_coords.length = obj.vertices.length)
    (hlen2 : v2.length = obj.vertices.length)
    (hcap : ∀ u ∈ s.targets, u.store_original = true)
    (ht : t.mesh = some msh) (htcap : t.store_original = true) :
    (updateExecute obj s).settings.base_coords = s.base_coords
    ∧ (updateExecute obj s).settings.targets = s.targets
    ∧ (updateExecute { obj with vertices := v2 } s).vertices
        = (updateExecute obj s).vertices
    ∧ (∀ sm orig, targetRecords sm orig { t with mesh := some { msh with vertices := v3 } }
        = targetRecords sm orig t) := by
  have hv2 : v2 ≠ [] := by
    intro h
    apply hv
    apply List.length_eq_zero.mp
    rw [← hlen2, h]
    rfl
  refine ⟨?_, ?_, ?_, ?_⟩
  · rw [updateExecute_settings_base_of_ne s hv, initSettings_of_init obj hinit]
  · rw [updateExecute_settings_targets_of_ne s hv, initSettings_of_init obj hinit]
    exact map_stepTarget_capturedAll hcap
  · have hFC : (finalCoords s.base_coords
        (allRecords (get_uv_vertex_map obj) s.base_coords s.targets)).length
        = obj.vertices.length := by
      rw [finalCoords_length]
      exact hlen
    rw [@updateExecute_vertices_of_ne { obj with vertices := v2 } s hv2,
      updateExecute_vertices_of_ne s hv, get_uv_vertex_map_set_vertices,
      initSettings_of_init _ hinit, initSettings_of_init _ hinit]
    dsimp only
    rw [writeBack_full _ _ (hFC.trans hlen2.symm), writeBack_full _ _ hFC]
  · intro sm orig
    exact targetRecords_captured_live_irrel sm orig v3 ht htcap

/-- C5 (witness): a concrete recompute with captured baselines leaves the
snapshots untouched and ignores live base geometry. -/
theorem C5_baselines_immutable_witness :
    (updateExecute exBase { targets := [exTargetCaptured], base_coords := [vzero], initialized := true }).settings.base_coords
      = [vzero]
    ∧ (updateExecute exBase { targets := [exTargetCaptured], base_coords := [vzero], initialized := true }).settings.targets
      = [exTargetCaptured]
    ∧ (updateExecute { exBase with vertices := [⟨7, 7, 7⟩] }
        { targets := [exTargetCaptured], base_coords := [vzero], initialized := true }).vertices
      = (updateExecute exBase { targets := [exTargetCaptured], base_coords := [vzero], initialized := true }).vertices
    ∧ (∀ sm orig, targetRecords sm orig
        { exTargetCaptured with mesh := some { exMoved with vertices := [⟨9, 9, 9⟩] } }
        = targetRecords sm orig exTargetCaptured) :=
  C5_baselines_immutable exBase [⟨7, 7, 7⟩] _ exTargetCaptured exMoved [⟨9, 9, 9⟩]
    (by simp [exBase]) rfl (by simp [exBase]) (by simp [exBase])
    (by simp [exTargetCaptured]) rfl rfl

/-- C6: the commit-then-reset round trip: after the commit (save) operation
every binding's weight is 0, the stored base baseline equals the committed
deformed shape, a subsequent recompute reproduces exactly the committed shape,
and a following reset changes no vertex position. -/
theorem C6_commit_reset_roundtrip (obj : Mesh) (s : Settings) (hv : obj.vertices ≠ []) :
    (∀ t ∈ (saveExecute obj s).settings.targets, t.value = 0)
    ∧ (saveExecute obj s).settings.base_coords = (saveExecute obj s).vertices
    ∧ (updateExecute { obj with vertices := (saveExecute obj s).vertices }
        (saveExecute obj s).settings).vertices = (saveExecute obj s).vertices
    ∧ (resetExecute { obj with vertices := (saveExecute obj s).vertices }
        (saveExecute obj s).settings).vertices = (saveExecute obj s).vertices := by
  have hv1 : (updateExecute obj s).vertices ≠ [] := updateExecute_vertices_ne s hv
  refine ⟨?_, ?_, ?_, ?_⟩
  · rw [saveExecute_spec hv]
    intro t htm
    exact zeroTargets_value htm
  · rw [saveExecute_spec hv]
  · rw [saveExecute_spec hv]
    dsimp only
    refine Eq.trans (update_allZero_vertices ?_ ?_ ?_ ?_) rfl
    · exact hv1
    · exact updateExecute_settings_initialized s hv
    · rfl
    · exact fun t htm => zeroTargets_skip t htm
  · rw [saveExecute_spec hv]
    dsimp only
    rw [resetExecute_vertices]
    refine Eq.trans (update_allZero_vertices ?_ ?_ ?_ ?_) rfl
    · exact hv1
    · exact updateExecute_settings_initialized s hv
    · rfl
    · exact fun t htm => zeroTargets_skip t htm

/-- C6 (witness): the round trip on a concrete one-vertex mesh with one active
binding at weight 1/2. -/
theorem C6_commit_reset_roundtrip_witness :
    (∀ t ∈ (saveExecute exBase { targets := [exTargetHalf], base_coords := [], initialized := false }).settings.targets, t.value = 0)
    ∧ (saveExecute exBase { targets := [exTargetHalf], base_coords := [], initialized := false }).settings.base_coords
      = (saveExecute exBase { targets := [exTargetHalf], base_coords := [], initialized := false }).vertices
    ∧ (updateExecute { exBase with vertices := (saveExecute exBase { targets := [exTargetHalf], base_coords := [], initialized := false }).vertices }
        (saveExecute exBase { targets := [exTargetHalf], base_coords := [], initialized := false }).settings).vertices
      = (saveExecute exBase { targets := [exTargetHalf], base_coords := [], initialized := false }).vertices
    ∧ (resetExecute { exBase with vertices := (saveExecute exBase { targets := [exTargetHalf], base_coords := [], initialized := false }).vertices }
        (saveExecute exBase { targets := [exTargetHalf], base_coords := [], initialized := false }).settings).vertices
      = (saveExecute exBase { targets := [exTargetHalf], base_coords := [], initialized := false }).vertices :=
  C6_commit_reset_roundtrip exBase _ (by simp [exBase])

end UVShape

namespace UVShape

/-- C2 (counterexample): the claim's condition "|weight| = w" admits negative
weights.  With one binding at weight -1/2 on a uniquely matched vertex (base at
the origin, target at x = 1), the recompute yields x = -1/2, not the claimed
base + w * (target - base) = 0 + (1/2) * (1 - 0) = 1/2. -/
theorem C2_counterexample :
    ¬ (((updateExecute exBase
          { targets := [exTargetNeg], base_coords := [], initialized := false }).vertices.getD
            0 vzero).x
      = 0 + (1/2 : ℚ) * (1 - 0)) := by
  norm_num [updateExecute, initSettings, get_uv_vertex_map, quantUV, exBase, exMoved,
    exTargetNeg, round5, insertLoop, allRecords, targetRecords, collectPairs, lookupUV,
    captureTarget, finalCoords, recordsFor, blendVertex, blendAxis, axisPairs, final_delta,
    groupDeltas, addToGroups, maxList, writeBack, sig, sigVec, Vec3.sub, vzero, tol5, tol6,
    abs_lt, lt_abs, List.filterMap_cons, List.filter_cons, List.range_succ]

/-- C2 (amended): for a recompute with exactly one active binding, of weight
`w` itself in (0,1) with `w` at least 1e-6 (every other binding skipped), in
which matched base vertex `s` has exactly one matched pair `(s, tv)` in the UV
cross product, and in which on each axis the target-minus-base delta is either
exactly zero or of magnitude above 1e-6, the output at `s` equals
`base + w * (target - base)` on every axis, where `target` is the binding's
baseline position of vertex `tv`. -/
theorem C2_single_binding_lerp (obj tmesh : Mesh) (t : Target)
    (pre post : List Target) (bc : List Vec3) (w : ℚ) (s tv : Nat)
    (hv : obj.vertices ≠ [])
    (hlen : bc.length = obj.vertices.length)
    (ht : t.mesh = some tmesh) (htv : t.value = w)
    (hw0 : 0 < w) (hw1 : w < 1) (hw6 : tol6 ≤ w)
    (hskip : ∀ u ∈ pre ++ post, u.mesh = none ∨ |u.value| < tol6)
    (hs : s < bc.length)
    (hpair : (collectPairs (get_uv_vertex_map obj) (get_uv_vertex_map tmesh)).filter
        (fun p => p.1 == s) = [(s, tv)])
    (hax : ∀ a : Fin 3,
      (Vec3.sub (((captureTarget t tmesh).original_coords).getD tv vzero)
          (bc.getD s vzero)).nth a = 0
      ∨ sig ((Vec3.sub (((captureTarget t tmesh).original_coords).getD tv vzero)
          (bc.getD s vzero)).nth a)) :
    ∀ a : Fin 3,
      ((updateExecute obj
          { targets := pre ++ t :: post, base_coords := bc,
            initialized := true }).vertices.getD s vzero).nth a
        = (bc.getD s vzero).nth a
          + w * ((((captureTarget t tmesh).original_coords).getD tv vzero).nth a
              - (bc.getD s vzero).nth a) := by
  intro a
  have hnw : ¬ |t.value| < tol6 := by
    rw [htv, abs_of_pos hw0]
    exact not_lt.mpr hw6
  have hpre : ∀ u ∈ pre, u.mesh = none ∨ |u.value| < tol6 :=
    fun u hu => hskip u (List.mem_append_left post hu)
  have hpost : ∀ u ∈ post, u.mesh = none ∨ |u.value| < tol6 :=
    fun u hu => hskip u (List.mem_append_right pre hu)
  rw [updateExecute_vertices_of_ne _ hv, initSettings_of_init obj rfl]
  dsimp only
  rw [allRecords_append, allRecords_cons, allRecords_skipAll _ _ hpre,
    allRecords_skipAll _ _ hpost, List.nil_append, List.append_nil,
    writeBack_full _ _ (by rw [finalCoords_length]; exact hlen),
    finalCoords_getD _ _ _ hs, targetRecords_active _ _ ht hnw,
    recordsFor_single_pair _ _ _ _ _ _ _ hpair, htv, ← nth_sub]
  by_cases hsd : sigVec (Vec3.sub (((captureTarget t tmesh).original_coords).getD tv vzero)
      (bc.getD s vzero))
  · rw [if_pos hsd, blendVertex_nth]
    rcases hax a with hz | hsg
    · rw [show axisPairs [((Vec3.sub (((captureTarget t tmesh).original_coords).getD tv vzero)
          (bc.getD s vzero)), w)] a
          = [((Vec3.sub (((captureTarget t tmesh).original_coords).getD tv vzero)
            (bc.getD s vzero)).nth a, w)] from rfl, hz, mul_zero, add_zero]
      refine blendAxis_nosig _ ?_
      rintro ⟨p, hp, hsig⟩
      rw [List.mem_singleton] at hp
      rw [hp] at hsig
      exact absurd hsig (by norm_num [sig, tol6])
    · rw [show axisPairs [((Vec3.sub (((captureTarget t tmesh).original_coords).getD tv vzero)
          (bc.getD s vzero)), w)] a
          = [((Vec3.sub (((captureTarget t tmesh).original_coords).getD tv vzero)
            (bc.getD s vzero)).nth a, w)] from rfl,
        blendAxis_single_sig _ _ hsg, mul_comm]
  · rw [if_neg hsd, blendVertex_nil,
      (hax a).resolve_right (not_sigVec_nth hsd a), mul_zero, add_zero]

/-- C2 (witness): the amended linear-interpolation law on a concrete uniquely
matched vertex at weight 1/2 (base at the origin, target at x = 1). -/
theorem C2_single_binding_lerp_witness :
    ((updateExecute exBase
        { targets := [] ++ exTargetHalf :: [], base_coords := [vzero],
          initialized := true }).vertices.getD 0 vzero).nth 0
      = (([vzero] : List Vec3).getD 0 vzero).nth 0
        + (1/2 : ℚ) * ((((captureTarget exTargetHalf exMoved).original_coords).getD
              0 vzero).nth 0
            - (([vzero] : List Vec3).getD 0 vzero).nth 0) :=
  C2_single_binding_lerp exBase exMoved exTargetHalf [] [] [vzero] (1/2) 0 0
    (by simp [exBase]) rfl rfl rfl (by norm_num) (by norm_num) (by norm_num [tol6])
    (by simp) (by norm_num)
    (by norm_num [collectPairs, get_uv_vertex_map, quantUV, round5, insertLoop, lookupUV,
      exBase, exMoved, List.filter_cons, List.flatMap_cons])
    (by
      have hd : Vec3.sub (((captureTarget exTargetHalf exMoved).original_coords).getD 0 vzero)
          (([vzero] : List Vec3).getD 0 vzero) = ⟨1, 0, 0⟩ := by
        norm_num [captureTarget, exTargetHalf, exMoved, Vec3.sub, vzero]
      intro a
      rw [hd]
      fin_cases a <;> norm_num [Vec3.nth, sig, tol6]) 0

end UVShape

namespace UVShape

/-! ## The correspondence indexer: duplicate-freedom and content -/

lemma nodup_insertIdx (vs : List Nat) (idx : Nat) (h : vs.Nodup) :
    (if idx ∈ vs then vs else vs ++ [idx]).Nodup := by
  by_cases hidx : idx ∈ vs
  · rw [if_pos hidx]
    exact h
  · rw [if_neg hidx, List.nodup_append]
    exact ⟨h, List.nodup_singleton idx, fun a ha h2 => hidx ((List.mem_singleton.mp h2) ▸ ha)⟩

lemma insertLoop_nodup (key : UV) (idx : Nat) :
    ∀ (acc : UVMap), (∀ kv ∈ acc, kv.2.Nodup) →
      ∀ kv ∈ insertLoop acc key idx, kv.2.Nodup := by
  intro acc
  induction acc with
  | nil =>
    intro _ kv hkv
    simp only [insertLoop, List.mem_singleton] at hkv
    subst hkv
    exact List.nodup_singleton idx
  | cons hd rest ih =>
    obtain ⟨k0, vs0⟩ := hd
    intro h kv hkv
    simp only [insertLoop] at hkv
    by_cases hk : k0 = key
    · rw [if_pos hk] at hkv
      rcases List.mem_cons.mp hkv with h1 | h1
      · subst h1
        exact nodup_insertIdx vs0 idx (h (k0, vs0) (List.mem_cons_self _ _))
      · exact h kv (List.mem_cons_of_mem _ h1)
    · rw [if_neg hk] at hkv
      rcases List.mem_cons.mp hkv with h1 | h1
      · subst h1
        exact h (k0, vs0) (List.mem_cons_self _ _)
      · exact ih (fun u hu => h u (List.mem_cons_of_mem _ hu)) kv h1

lemma insertLoop_ne_nil (key : UV) (idx : Nat) :
    ∀ (acc : UVMap), (∀ kv ∈ acc, kv.2 ≠ []) →
      ∀ kv ∈ insertLoop acc key idx, kv.2 ≠ [] := by
  intro acc
  induction acc with
  | nil =>
    intro _ kv hkv
    simp only [insertLoop, List.mem_singleton] at hkv
    subst hkv
    simp
  | cons hd rest ih =>
    obtain ⟨k0, vs0⟩ := hd
    intro h kv hkv
    simp only [insertLoop] at hkv
    by_cases hk : k0 = key
    · rw [if_pos hk] at hkv
      rcases List.mem_cons.mp hkv with h1 | h1
      · subst h1
        by_cases hidx : idx ∈ vs0
        · simpa [hidx] using h (k0, vs0) (List.mem_cons_self _ _)
        · simp [hidx]
      · exact h kv (List.mem_cons_of_mem _ h1)
    · rw [if_neg hk] at hkv
      rcases List.mem_cons.mp hkv with h1 | h1
      · subst h1
        exact h (k0, vs0) (List.mem_cons_self _ _)
      · exact ih (fun u hu => h u (List.mem_cons_of_mem _ hu)) kv h1

lemma insertLoop_memVal (key : UV) (idx : Nat) :
    ∀ (acc : UVMap) (k : UV) (v : Nat),
      (∃ vs, (k, vs) ∈ insertLoop acc key idx ∧ v ∈ vs)
        ↔ (∃ vs, (k, vs) ∈ acc ∧ v ∈ vs) ∨ (k = key ∧ v = idx) := by
  intro acc
  induction acc with
  | nil =>
    intro k v
    constructor
    · rintro ⟨vs, hm, hv⟩
      simp only [insertLoop, List.mem_singleton, Prod.mk.injEq] at hm
      right
      refine ⟨hm.1, ?_⟩
      rw [hm.2] at hv
      simpa using hv
    · rintro (⟨vs, hm, _⟩ | ⟨hk, hv⟩)
      · exact absurd hm (List.not_mem_nil _)
      · exact ⟨[idx], by simp [insertLoop, hk], by simp [hv]⟩
  | cons hd rest ih =>
    obtain ⟨k0, vs0⟩ := hd
    intro k v
    simp only [insertLoop]
    by_cases hk0 : k0 = key
    · rw [if_pos hk0]
      constructor
      · rintro ⟨vs, hm, hv⟩
        rcases List.mem_cons.mp hm with h1 | h1
        · have hk : k = k0 := congrArg Prod.fst h1
          have hvs : vs = if idx ∈ vs0 then vs0 else vs0 ++ [idx] := congrArg Prod.snd h1
          rw [hvs] at hv
          by_cases hidx : idx ∈ vs0
          · rw [if_pos hidx] at hv
            exact Or.inl ⟨vs0, by rw [hk]; exact List.mem_cons_self _ _, hv⟩
          · rw [if_neg hidx] at hv
            rcases List.mem_append.mp hv with h2 | h2
            · exact Or.inl ⟨vs0, by rw [hk]; exact List.mem_cons_self _ _, h2⟩
            · exact Or.inr ⟨by rw [hk, hk0], by simpa using h2⟩
        · exact Or.inl ⟨vs, List.mem_cons_of_mem _ h1, hv⟩
      · rintro (⟨vs, hm, hv⟩ | ⟨hk, hv⟩)
        · rcases List.mem_cons.mp hm with h1 | h1
          · have hk : k = k0 := congrArg Prod.fst h1
            have hvs : vs = vs0 := congrArg Prod.snd h1
            refine ⟨if idx ∈ vs0 then vs0 else vs0 ++ [idx],
              by rw [hk]; exact List.mem_cons_self _ _, ?_⟩
            rw [hvs] at hv
            by_cases hidx : idx ∈ vs0
            · rw [if_pos hidx]
              exact hv
            · rw [if_neg hidx]
              exact List.mem_append_left _ hv
          · exact ⟨vs, List.mem_cons_of_mem _ h1, hv⟩
        · refine ⟨if idx ∈ vs0 then vs0 else vs0 ++ [idx],
            by rw [hk, ← hk0]; exact List.mem_cons_self _ _, ?_⟩
          rw [hv]
          by_cases hidx : idx ∈ vs0
          · rw [if_pos hidx]
            exact hidx
          · rw [if_neg hidx]
            exact List.mem_append_right _ (List.mem_singleton.mpr rfl)
    · rw [if_neg hk0]
      constructor
      · rintro ⟨vs, hm, hv⟩
        rcases List.mem_cons.mp hm with h1 | h1
        · exact Or.inl ⟨vs, List.mem_cons.mpr (Or.inl h1), hv⟩
        · rcases (ih k v).mp ⟨vs, h1, hv⟩ with h2 | h2
          · obtain ⟨vs2, hm2, hv2⟩ := h2
            exact Or.inl ⟨vs2, List.mem_cons_of_mem _ hm2, hv2⟩
          · exact Or.inr h2
      · rintro (⟨vs, hm, hv⟩ | h2)
        · rcases List.mem_cons.mp hm with h1 | h1
          · exact ⟨vs, List.mem_cons.mpr (Or.inl h1), hv⟩
          · obtain ⟨vs2, hm2, hv2⟩ := (ih k v).mpr (Or.inl ⟨vs, h1, hv⟩)
            exact ⟨vs2, List.mem_cons_of_mem _ hm2, hv2⟩
        · obtain ⟨vs2, hm2, hv2⟩ := (ih k v).mpr (Or.inr h2)
          exact ⟨vs2, List.mem_cons_of_mem _ hm2, hv2⟩

/-- Invariant of the indexer's fold: values stay duplicate-free and nonempty,
and the key/value content is exactly the processed loops' quantized pairs. -/
lemma foldInsert_spec (loops : List (UV × Nat)) :
    ∀ (acc : UVMap), (∀ kv ∈ acc, kv.2.Nodup) → (∀ kv ∈ acc, kv.2 ≠ []) →
      (∀ kv ∈ loops.foldl (fun m l => insertLoop m (quantUV l.1) l.2) acc, kv.2.Nodup)
      ∧ (∀ kv ∈ loops.foldl (fun m l => insertLoop m (quantUV l.1) l.2) acc, kv.2 ≠ [])
      ∧ (∀ k v,
          (∃ vs, (k, vs) ∈ loops.foldl (fun m l => insertLoop m (quantUV l.1) l.2) acc ∧ v ∈ vs)
            ↔ (∃ vs, (k, vs) ∈ acc ∧ v ∈ vs) ∨ ∃ l ∈ loops, quantUV l.1 = k ∧ l.2 = v) := by
  induction loops with
  | nil =>
    intro acc h1 h2
    refine ⟨by simpa using h1, by simpa using h2, ?_⟩
    intro k v
    simp
  | cons l rest ih =>
    intro acc h1 h2
    rw [List.foldl_cons]
    obtain ⟨ih1, ih2, ih3⟩ := ih (insertLoop acc (quantUV l.1) l.2)
      (insertLoop_nodup _ _ acc h1) (insertLoop_ne_nil _ _ acc h2)
    refine ⟨ih1, ih2, ?_⟩
    intro k v
    rw [ih3 k v, insertLoop_memVal _ _ acc k v]
    constructor
    · rintro ((h3 | ⟨hk, hv⟩) | h3)
      · exact Or.inl h3
      · exact Or.inr ⟨l, List.mem_cons_self _ _, hk.symm, hv.symm⟩
      · obtain ⟨l2, hl2, h4⟩ := h3
        exact Or.inr ⟨l2, List.mem_cons_of_mem _ hl2, h4⟩
    · rintro (h3 | ⟨l2, hl2, hqk, hlv⟩)
      · exact Or.inl (Or.inl h3)
      · rcases List.mem_cons.mp hl2 with h4 | h4
        · subst h4
          exact Or.inl (Or.inr ⟨hqk.symm, hlv.symm⟩)
        · exact Or.inr ⟨l2, h4, hqk, hlv⟩

/-- C8: the correspondence indexer returns an empty mapping when there is no
active UV layer or no face; its values are duplicate-free; and (with an active
UV layer) a vertex index `v` sits under key `k` exactly when some face loop
carries vertex `v` with a UV coordinate that quantizes to `k` — in particular
every key is a quantized loop UV coordinate. -/
theorem C8_indexer_characterization (m : Mesh) :
    (m.hasUV = false → get_uv_vertex_map m = [])
    ∧ (m.faces = [] → get_uv_vertex_map m = [])
    ∧ (∀ kv ∈ get_uv_vertex_map m, kv.2.Nodup)
    ∧ (m.hasUV = true → ∀ k v,
        (∃ vs, (k, vs) ∈ get_uv_vertex_map m ∧ v ∈ vs)
          ↔ ∃ l ∈ m.faces.flatten, quantUV l.1 = k ∧ l.2 = v)
    ∧ (m.hasUV = true → ∀ kv ∈ get_uv_vertex_map m,
        ∃ l ∈ m.faces.flatten, quantUV l.1 = kv.1) := by
  have hmap : m.hasUV = true → get_uv_vertex_map m
      = m.faces.flatten.foldl (fun acc l => insertLoop acc (quantUV l.1) l.2) [] := by
    intro hUV
    unfold get_uv_vertex_map
    rw [hUV]
    simp
  refine ⟨?_, ?_, ?_, ?_, ?_⟩
  · intro h
    unfold get_uv_vertex_map
    rw [h]
    simp
  · intro h
    unfold get_uv_vertex_map
    rw [h]
    simp
  · intro kv hkv
    cases hUV : m.hasUV with
    | false =>
      unfold get_uv_vertex_map at hkv
      rw [hUV] at hkv
      exact absurd hkv (List.not_mem_nil _)
    | true =>
      rw [hmap hUV] at hkv
      exact (foldInsert_spec m.faces.flatten [] (by simp) (by simp)).1 kv hkv
  · intro hUV k v
    rw [hmap hUV, (foldInsert_spec m.faces.flatten [] (by simp) (by simp)).2.2 k v]
    simp
  · intro hUV kv hkv
    have hne : kv.2 ≠ [] := by
      rw [hmap hUV] at hkv
      exact (foldInsert_spec m.faces.flatten [] (by simp) (by simp)).2.1 kv hkv
    obtain ⟨v, hv⟩ := List.exists_mem_of_ne_nil kv.2 hne
    have hmem : ∃ vs, (kv.1, vs) ∈ get_uv_vertex_map m ∧ v ∈ vs := ⟨kv.2, hkv, hv⟩
    rw [hmap hUV] at hmem
    obtain ⟨l, hl, hq, _⟩ :=
      ((foldInsert_spec m.faces.flatten [] (by simp) (by simp)).2.2 kv.1 v).mp hmem
      |>.resolve_left (by simp)
    exact ⟨l, hl, hq⟩

/-- C8 (witness): a UV-less mesh indexes to the empty mapping, and on the
concrete one-loop mesh the characterization puts vertex 0 under key (0, 0). -/
theorem C8_indexer_characterization_witness :
    get_uv_vertex_map { vertices := ([] : List Vec3), hasUV := false, faces := [[((0, 0), 0)]] } = []
    ∧ (∃ vs, (((0 : ℚ), (0 : ℚ)), vs) ∈ get_uv_vertex_map exBase ∧ 0 ∈ vs) :=
  ⟨(C8_indexer_characterization _).1 rfl,
   ((C8_indexer_characterization exBase).2.2.2.1 rfl (0, 0) 0).mpr
     ⟨((0, 0), 0), by simp [exBase], by norm_num [quantUV, round5], rfl⟩⟩

end UVShape
